import Mathlib

/-!
Verification development for the pchain diagnostic / data-migration layer
(cmd/geth/chaincmd.go and tendermint go-common/service.go), shallowly
embedded: byte strings are lists of naturals, the output of the trie walker is a
list of items, stores are functions, and the CLI operations are pure
functions on their argument lists.
-/

namespace PChain

/-- Byte strings (raw stored node blobs, hashes, keys) as lists of naturals. -/
abbrev Bytes := List Nat

/-- Lower-case hex digit for a value below 16 (as in common.Bytes2Hex). -/
def hexDigitChar (n : Nat) : Char :=
  if n < 10 then Char.ofNat (n + 48) else Char.ofNat (n + 87)

/-- Two-character lower-case hex rendering of one byte. -/
def byteToHex (b : Nat) : String :=
  String.mk [hexDigitChar (b / 16), hexDigitChar (b % 16)]

/-- common.Bytes2Hex: hex encoding of a byte string, no prefix. -/
def bytes2Hex (bs : Bytes) : String :=
  String.join (bs.map byteToHex)

/-- common.Hash.String(): 0x-prefixed hex of the 32 hash bytes. -/
def hashString (h : Bytes) : String :=
  "0x" ++ bytes2Hex h

/-- Numeric value of one hex character (0 for non-hex, as a total stand-in). -/
def hexCharVal (c : Char) : Nat :=
  if 48 ≤ c.toNat ∧ c.toNat ≤ 57 then c.toNat - 48
  else if 97 ≤ c.toNat ∧ c.toNat ≤ 102 then c.toNat - 87
  else if 65 ≤ c.toNat ∧ c.toNat ≤ 70 then c.toNat - 55
  else 0

/-- Hex character pairs to bytes (the core of common.HexToHash on a
64-character string). -/
def hexToBytes : List Char → Bytes
  | c1 :: c2 :: rest => (16 * hexCharVal c1 + hexCharVal c2) :: hexToBytes rest
  | _ => []

/-- emptyRoot (chaincmd.go line 495): the well-known root hash of the empty
trie, the sentinel meaning no sub-trie exists. -/
def emptyRoot : Bytes :=
  hexToBytes ("56e81f171bcc55a6ff8345e692c0f86e5b48e01b996cadc001622fb5e363b421").data

/-- common.BytesToAddress: keep the last 20 bytes, left-padding with zero
bytes when shorter. For a 20-byte input this is the identity. -/
def bytesToAddress (b : Bytes) : Bytes :=
  List.replicate (20 - b.length) 0 ++ b.drop (b.length - 20)

/-- One item yielded by the trie walker (state.Trie.NodeIterator): an
internal node reported by its hash, or a leaf reported by its key and its
opaque value blob. -/
inductive TrieItem where
  | internal (hash : Bytes)
  | leaf (leafKey : Bytes) (leafBlob : Bytes)
deriving DecidableEq

/-- state.Account as used by countBlockState: the five per-account trie
roots (the remaining account fields are irrelevant to the census). -/
structure Account where
  Root : Bytes
  TX1Root : Bytes
  TX3Root : Bytes
  ProxiedRoot : Bytes
  RewardRoot : Bytes
deriving DecidableEq

/-- One dump line of the census: hash hex and value hex (nodeData). -/
structure NodeDatum where
  key : String
  value : String
deriving DecidableEq

/-- CountSize (chaincmd.go lines 484-487): the census accumulator. -/
structure CountSize where
  Totalnodevaluesize : Nat
  Totalnode : Nat
  Data : List NodeDatum
deriving DecidableEq

/-- A leaf callback, as the processLeafTrie function type: given the
address and the decoded account, update the accumulator (the Go callback
mutates the accumulator through a pointer). -/
abbrev ProcessLeaf := Bytes → Account → CountSize → CountSize

/-- countTrie (chaincmd.go lines 497-518) over the item list of the walker.
`db` is ethdb.Database.Get (a miss yields the empty byte string, as the Go
code discards the error), `gk` is state.Trie.GetKey resolving a leaf key to
its preimage, and `dec` is rlp.DecodeBytes into a state.Account.  For an
internal node: fetch the raw bytes, add their length to Totalnodevaluesize,
increment Totalnode, append the (hash hex, value hex) pair.  For a leaf:
when a callback is present and the resolved key is 20 bytes long, decode
the blob and run the callback; otherwise do nothing. -/
def countTrie (db : Bytes → Bytes) (gk : Bytes → Bytes) (dec : Bytes → Account)
    (items : List TrieItem) (count : CountSize) (processLeaf : Option ProcessLeaf) :
    CountSize :=
  match items with
  | [] => count
  | TrieItem.internal h :: rest =>
      let node := db h
      countTrie db gk dec rest
        { Totalnodevaluesize := count.Totalnodevaluesize + node.length
          Totalnode := count.Totalnode + 1
          Data := count.Data ++ [⟨hashString h, bytes2Hex node⟩] } processLeaf
  | TrieItem.leaf k b :: rest =>
      match processLeaf with
      | none => countTrie db gk dec rest count none
      | some f =>
          let addr := gk k
          if addr.length = 20 then
            countTrie db gk dec rest (f (bytesToAddress addr) (dec b) count) (some f)
          else
            countTrie db gk dec rest count (some f)

/-- Number of internal (non-leaf) items in a walker sequence. -/
def internalCount (items : List TrieItem) : Nat :=
  (items.filter fun i => match i with | TrieItem.internal _ => true | _ => false).length

/-- Total raw stored byte length of the internal items of a walker
sequence. -/
def internalSizes (db : Bytes → Bytes) (items : List TrieItem) : Nat :=
  (items.map fun i => match i with | TrieItem.internal h => (db h).length | _ => 0).sum

/-- The dump pairs contributed by the internal items of a walker
sequence, in visitation order. -/
def internalDump (db : Bytes → Bytes) (items : List TrieItem) : List NodeDatum :=
  items.filterMap fun i =>
    match i with
    | TrieItem.internal h => some ⟨hashString h, bytes2Hex (db h)⟩
    | _ => none

/-- A sub-trie walk (processLeaf = nil) adds exactly the count, byte
total and dump pairs of the internal items to the accumulator. -/
theorem countTrie_none_spec (db : Bytes → Bytes) (gk : Bytes → Bytes)
    (dec : Bytes → Account) (items : List TrieItem) (count : CountSize) :
    countTrie db gk dec items count none =
      { Totalnodevaluesize := count.Totalnodevaluesize + internalSizes db items
        Totalnode := count.Totalnode + internalCount items
        Data := count.Data ++ internalDump db items } := by
  induction items generalizing count with
  | nil => simp [countTrie, internalSizes, internalCount, internalDump]
  | cons i rest ih =>
      cases i with
      | internal h =>
          simp only [countTrie, ih]
          simp [internalSizes, internalCount, internalDump, List.filter]
          omega
      | leaf k b =>
          simp only [countTrie, ih]
          simp [internalSizes, internalCount, internalDump, List.filter]

/-- The five sub-trie openers obtained from statedb.Database()
(OpenStorageTrie, OpenTX1Trie, OpenTX3Trie, OpenProxiedTrie,
OpenRewardTrie), each modelled by the walker item sequence of the trie
rooted at the given hash. -/
structure TrieOpeners where
  storage : Bytes → List TrieItem
  tx1 : Bytes → List TrieItem
  tx3 : Bytes → List TrieItem
  proxied : Bytes → List TrieItem
  reward : Bytes → List TrieItem

/-- The leaf callback countBlockState passes to countTrie (chaincmd.go
lines 441-466): for each of the five account roots that differs from
emptyRoot, open that sub-trie and count it with a nil callback,
accumulating into the same CountSize; a root equal to emptyRoot is
skipped. -/
def processAccountLeaf (db gk : Bytes → Bytes) (dec : Bytes → Account)
    (ot : TrieOpeners) (_addr : Bytes) (account : Account) (count : CountSize) :
    CountSize :=
  let c1 := if account.Root ≠ emptyRoot then
    countTrie db gk dec (ot.storage account.Root) count none else count
  let c2 := if account.TX1Root ≠ emptyRoot then
    countTrie db gk dec (ot.tx1 account.TX1Root) c1 none else c1
  let c3 := if account.TX3Root ≠ emptyRoot then
    countTrie db gk dec (ot.tx3 account.TX3Root) c2 none else c2
  let c4 := if account.ProxiedRoot ≠ emptyRoot then
    countTrie db gk dec (ot.proxied account.ProxiedRoot) c3 none else c3
  if account.RewardRoot ≠ emptyRoot then
    countTrie db gk dec (ot.reward account.RewardRoot) c4 none else c4

/-- The census proper (chaincmd.go lines 440-466): walk the account trie
with the per-account callback, starting from the zero accumulator. -/
def census (db gk : Bytes → Bytes) (dec : Bytes → Account) (ot : TrieOpeners)
    (accountItems : List TrieItem) : CountSize :=
  countTrie db gk dec accountItems ⟨0, 0, []⟩
    (some (processAccountLeaf db gk dec ot))

/-- Internal-node count contributed by the five sub-tries of one account:
each root different from emptyRoot contributes the internal nodes of
its sub-trie, a root equal to emptyRoot contributes zero. -/
def fiveRootNodes (ot : TrieOpeners) (a : Account) : Nat :=
  (if a.Root ≠ emptyRoot then internalCount (ot.storage a.Root) else 0)
  + (if a.TX1Root ≠ emptyRoot then internalCount (ot.tx1 a.TX1Root) else 0)
  + (if a.TX3Root ≠ emptyRoot then internalCount (ot.tx3 a.TX3Root) else 0)
  + (if a.ProxiedRoot ≠ emptyRoot then internalCount (ot.proxied a.ProxiedRoot) else 0)
  + (if a.RewardRoot ≠ emptyRoot then internalCount (ot.reward a.RewardRoot) else 0)

/-- Sub-trie internal-node contribution of one account-trie item: leaves
whose resolved key is 20 bytes long contribute the five-root total of
their account, everything else contributes zero. -/
def accountSubtrieNodes (gk : Bytes → Bytes) (dec : Bytes → Account)
    (ot : TrieOpeners) : TrieItem → Nat
  | TrieItem.internal _ => 0
  | TrieItem.leaf k b => if (gk k).length = 20 then fiveRootNodes ot (dec b) else 0

theorem processAccountLeaf_Totalnode (db gk : Bytes → Bytes) (dec : Bytes → Account)
    (ot : TrieOpeners) (addr : Bytes) (a : Account) (count : CountSize) :
    (processAccountLeaf db gk dec ot addr a count).Totalnode =
      count.Totalnode + fiveRootNodes ot a := by
  simp only [processAccountLeaf, fiveRootNodes]
  split_ifs <;> simp [countTrie_none_spec] <;> omega

/-- Step equation: an internal node adds its raw byte length, one node and
one dump pair, whatever the leaf callback is. -/
theorem countTrie_cons_internal (db gk : Bytes → Bytes) (dec : Bytes → Account)
    (h : Bytes) (rest : List TrieItem) (count : CountSize)
    (pl : Option ProcessLeaf) :
    countTrie db gk dec (TrieItem.internal h :: rest) count pl =
      countTrie db gk dec rest
        { Totalnodevaluesize := count.Totalnodevaluesize + (db h).length
          Totalnode := count.Totalnode + 1
          Data := count.Data ++ [⟨hashString h, bytes2Hex (db h)⟩] } pl := rfl

/-- Step equation: with a nil callback a leaf leaves the accumulator
untouched. -/
theorem countTrie_cons_leaf_none (db gk : Bytes → Bytes) (dec : Bytes → Account)
    (k b : Bytes) (rest : List TrieItem) (count : CountSize) :
    countTrie db gk dec (TrieItem.leaf k b :: rest) count none =
      countTrie db gk dec rest count none := rfl

/-- Step equation: with a callback, a leaf only runs the callback (when
its resolved key is 20 bytes long) and adds nothing itself. -/
theorem countTrie_cons_leaf_some (db gk : Bytes → Bytes) (dec : Bytes → Account)
    (f : ProcessLeaf) (k b : Bytes) (rest : List TrieItem) (count : CountSize) :
    countTrie db gk dec (TrieItem.leaf k b :: rest) count (some f) =
      countTrie db gk dec rest
        (if (gk k).length = 20 then f (bytesToAddress (gk k)) (dec b) count else count)
        (some f) := by
  by_cases hk : (gk k).length = 20 <;> simp [countTrie, hk]

theorem countTrie_account_Totalnode (db gk : Bytes → Bytes) (dec : Bytes → Account)
    (ot : TrieOpeners) (items : List TrieItem) (count : CountSize) :
    (countTrie db gk dec items count (some (processAccountLeaf db gk dec ot))).Totalnode =
      count.Totalnode + internalCount items
        + (items.map (accountSubtrieNodes gk dec ot)).sum := by
  induction items generalizing count with
  | nil => simp [countTrie, internalCount]
  | cons i rest ih =>
      cases i with
      | internal h =>
          rw [countTrie_cons_internal, ih]
          simp [internalCount, accountSubtrieNodes, List.filter]
          omega
      | leaf k b =>
          rw [countTrie_cons_leaf_some]
          by_cases hk : (gk k).length = 20
          · rw [if_pos hk, ih, processAccountLeaf_Totalnode]
            simp [internalCount, accountSubtrieNodes, List.filter, hk]
            omega
          · rw [if_neg hk, ih]
            simp [internalCount, accountSubtrieNodes, List.filter, hk]

/-- C1: in every trie walked by the census (the account trie, walked with
the per-account callback, and every non-empty sub-trie, walked with a nil
callback), each internal node visited contributes exactly its raw stored
byte length to Totalnodevaluesize, exactly 1 to Totalnode and exactly one
(hash hex, value hex) pair appended to the dump sequence; a leaf
contributes nothing itself: with a nil callback it is skipped outright,
with a callback it only hands the accumulator to the callback, and over a
whole nil-callback walk the accumulator grows by exactly the count,
byte total and dump pairs of the internal items. -/
theorem census_per_node_contribution (db gk : Bytes → Bytes) (dec : Bytes → Account) :
    (∀ (count : CountSize) (pl : Option ProcessLeaf) (h : Bytes)
        (rest : List TrieItem),
      countTrie db gk dec (TrieItem.internal h :: rest) count pl =
        countTrie db gk dec rest
          { Totalnodevaluesize := count.Totalnodevaluesize + (db h).length
            Totalnode := count.Totalnode + 1
            Data := count.Data ++ [⟨hashString h, bytes2Hex (db h)⟩] } pl)
    ∧ (∀ (count : CountSize) (k b : Bytes) (rest : List TrieItem),
      countTrie db gk dec (TrieItem.leaf k b :: rest) count none =
        countTrie db gk dec rest count none)
    ∧ (∀ (count : CountSize) (f : ProcessLeaf) (k b : Bytes)
        (rest : List TrieItem),
      countTrie db gk dec (TrieItem.leaf k b :: rest) count (some f) =
        countTrie db gk dec rest
          (if (gk k).length = 20 then f (bytesToAddress (gk k)) (dec b) count
           else count) (some f))
    ∧ (∀ (count : CountSize) (items : List TrieItem),
      countTrie db gk dec items count none =
        { Totalnodevaluesize := count.Totalnodevaluesize + internalSizes db items
          Totalnode := count.Totalnode + internalCount items
          Data := count.Data ++ internalDump db items }) :=
  ⟨fun count pl h rest => countTrie_cons_internal db gk dec h rest count pl,
   fun count k b rest => countTrie_cons_leaf_none db gk dec k b rest count,
   fun count f k b rest => countTrie_cons_leaf_some db gk dec f k b rest count,
   fun count items => countTrie_none_spec db gk dec items count⟩

/-- C2: after a census, Totalnode equals the number of internal nodes of
the account trie plus, for each account leaf and each of its five roots
that is not emptyRoot, the number of internal nodes of that sub-trie; a
root equal to emptyRoot contributes zero. -/
theorem census_totalnode_additivity (db gk : Bytes → Bytes) (dec : Bytes → Account)
    (ot : TrieOpeners) (items : List TrieItem) :
    (census db gk dec ot items).Totalnode =
      internalCount items + (items.map (accountSubtrieNodes gk dec ot)).sum := by
  unfold census
  rw [countTrie_account_Totalnode]
  simp

/-- C8: an account-trie leaf whose resolved key is not exactly 20 bytes
long is ignored: the walk continues with the accumulator unchanged, and on
such a leaf alone the result does not depend on the account decoder or on
the leaf callback (neither is invoked). -/
theorem census_ignores_non_address_leaves (db gk : Bytes → Bytes)
    (dec : Bytes → Account) (f : ProcessLeaf) (count : CountSize) (k b : Bytes)
    (hk : (gk k).length ≠ 20) :
    (∀ rest : List TrieItem,
      countTrie db gk dec (TrieItem.leaf k b :: rest) count (some f) =
        countTrie db gk dec rest count (some f))
    ∧ ∀ (dec2 : Bytes → Account) (f2 : ProcessLeaf),
        countTrie db gk dec2 [TrieItem.leaf k b] count (some f2) = count := by
  constructor
  · intro rest
    rw [countTrie_cons_leaf_some, if_neg hk]
  · intro dec2 f2
    rw [countTrie_cons_leaf_some, if_neg hk]
    rfl

/-- Witness for C8 at a concrete 1-byte leaf key. -/
theorem census_ignores_non_address_leaves_witness :
    (([1] : Bytes)).length ≠ 20 ∧
      countTrie (fun _ => []) (fun x => x) (fun _ => ⟨[], [], [], [], []⟩)
        [TrieItem.leaf [1] []] ⟨0, 0, []⟩ (some (fun _ _ c => c)) = ⟨0, 0, []⟩ :=
  ⟨by decide,
   (census_ignores_non_address_leaves (fun _ => []) (fun x => x)
      (fun _ => ⟨[], [], [], [], []⟩) (fun _ _ c => c) ⟨0, 0, []⟩ [1] []
      (by decide)).2 (fun _ => ⟨[], [], [], [], []⟩) (fun _ _ c => c)⟩

/-- A block as countBlockState reads it: its encoded size and the state
root of its header. -/
structure Block where
  size : Nat
  root : Bytes
deriving DecidableEq

/-- The chain store as countBlockState uses it.  Modelled from the spec:
rawdb.ReadCanonicalHash, rawdb.ReadBlock, state.New and OpenTrie are
external collaborators (the store exposes a canonical-chain index, height
to hash to block, and an account trie keyed by a state root); only their
boundary behaviour is represented: readCanonicalHash yields the zero hash
when the height has no canonical block, readBlock yields none (the Go nil)
when the block is absent, stateRootPresent tells whether state.New
succeeds at a root (the Go code discards its error), get is
ethdb.Database.Get with a miss as the empty byte string, and openTrie
yields the walker items of the account trie at a root. -/
structure ChainDB where
  get : Bytes → Bytes
  readCanonicalHash : Nat → Bytes
  readBlock : Bytes → Nat → Option Block
  stateRootPresent : Bytes → Bool
  openTrie : Bytes → List TrieItem

/-- Outcome of one countBlockState run: a Go runtime panic from
dereferencing a nil block (block.Size() with no canonical block) or a nil
statedb (statedb.Database() after state.New failed), or normal completion
with the dump-file lines and the summary quadruple (height, block size,
total nodes, total node bytes). -/
inductive CBSOutcome where
  | panicNilBlock
  | panicNilStateDB
  | done (fileLines : List String) (height bsize totalnode totalsize : Nat)
deriving DecidableEq

/-- countBlockState (chaincmd.go lines 414-482) after argument handling:
read the canonical hash, read the block (dereferencing it for its size),
open the state and the account trie, run the census, then write one line
per dump pair and report the summary. -/
def countBlockState (db : ChainDB) (gk : Bytes → Bytes) (dec : Bytes → Account)
    (ot : TrieOpeners) (height : Nat) : CBSOutcome :=
  let blockhash := db.readCanonicalHash height
  match db.readBlock blockhash height with
  | none => CBSOutcome.panicNilBlock
  | some block =>
      if db.stateRootPresent block.root then
        let count := census db.get gk dec ot (db.openTrie block.root)
        CBSOutcome.done (count.Data.map fun d => d.key ++ " " ++ d.value ++ "\n")
          height block.size count.Totalnode count.Totalnodevaluesize
      else CBSOutcome.panicNilStateDB

/-- C3 (code bug): a census at a height with no canonical block, or whose
state root of whose block is absent from the store, does not fail with a
BlockNotFound / StateNotFound error as specified — it panics on a nil
dereference (block.Size() on a nil block, statedb.Database() on a nil
statedb), evaluated here at height 7 of a store with no block and at a
store where the block is present but its state root absent. -/
theorem countBlockState_missing_data_panics :
    countBlockState
      { get := fun _ => [], readCanonicalHash := fun _ => List.replicate 32 0,
        readBlock := fun _ _ => none, stateRootPresent := fun _ => false,
        openTrie := fun _ => [] }
      (fun x => x) (fun _ => ⟨[], [], [], [], []⟩)
      ⟨fun _ => [], fun _ => [], fun _ => [], fun _ => [], fun _ => []⟩ 7
      = CBSOutcome.panicNilBlock
    ∧ countBlockState
      { get := fun _ => [], readCanonicalHash := fun _ => List.replicate 32 0,
        readBlock := fun _ _ => some ⟨100, [1]⟩, stateRootPresent := fun _ => false,
        openTrie := fun _ => [] }
      (fun x => x) (fun _ => ⟨[], [], [], [], []⟩)
      ⟨fun _ => [], fun _ => [], fun _ => [], fun _ => [], fun _ => []⟩ 7
      = CBSOutcome.panicNilStateDB :=
  ⟨rfl, rfl⟩

/-- One record of an import file: a well-formed block (identified by an
abstract id) or a record whose decoding or insertion fails with the given
message. -/
inductive BlockRec where
  | good (id : Nat)
  | bad (msg : String)
deriving DecidableEq

/-- Modelled from the spec: utils.ImportChain is external; it decodes the
file as a sequence of concatenated block records and inserts each into the
store in order, and any decode or insertion error aborts the import of that
file, returning the error, with the blocks already inserted remaining in
the store. -/
def importChainFile : List Nat → List BlockRec → List Nat × Option String
  | store, [] => (store, none)
  | store, BlockRec.good b :: rest => importChainFile (store ++ [b]) rest
  | store, BlockRec.bad m :: _ => (store, some m)

/-- The multi-file loop of importChain (chaincmd.go lines 230-237): run
utils.ImportChain on each file in order, logging each failure and
continuing with the next file. -/
def importFiles : List Nat → List String → List (List BlockRec) →
    List Nat × List String
  | store, logged, [] => (store, logged)
  | store, logged, f :: rest =>
      let fr := importChainFile store f
      importFiles fr.1
        (logged ++ (match fr.2 with | some m => [m] | none => [])) rest

/-- Result of one importChain command: the store contents, the logged
errors of the import, and the value the function returns to its caller (none is
the Go nil). -/
structure ImportRun where
  store : List Nat
  logged : List String
  result : Option String
deriving DecidableEq

/-- importChain (chaincmd.go lines 225-238 and 287): with exactly one file
(len(ctx.Args()) == 2) run utils.ImportChain on it and log any error; with
any other number of files loop over them, logging each error; in every
case fall through to the statistics section and return nil. -/
def importChain (store : List Nat) (files : List (List BlockRec)) : ImportRun :=
  if files.length = 1 then
    let r := importChainFile store (files.headD [])
    { store := r.1
      logged := match r.2 with | some m => [m] | none => []
      result := none }
  else
    let r := importFiles store [] files
    { store := r.1, logged := r.2, result := none }

/-- Blocks a file contributes before its first failing record (all of them
for a well-formed file). -/
def insertedBlocks : List BlockRec → List Nat
  | [] => []
  | BlockRec.good b :: rest => b :: insertedBlocks rest
  | BlockRec.bad _ :: _ => []

/-- The first decode/insertion error of a file, if any. -/
def fileErr : List BlockRec → Option String
  | [] => none
  | BlockRec.good _ :: rest => fileErr rest
  | BlockRec.bad m :: _ => some m

theorem importChainFile_spec (f : List BlockRec) (store : List Nat) :
    importChainFile store f = (store ++ insertedBlocks f, fileErr f) := by
  induction f generalizing store with
  | nil => simp [importChainFile, insertedBlocks, fileErr]
  | cons r rest ih =>
      cases r with
      | good b => simp [importChainFile, insertedBlocks, fileErr, ih]
      | bad m => simp [importChainFile, insertedBlocks, fileErr]

theorem fileErr_append_bad (pre : List BlockRec) (m : String)
    (rest : List BlockRec) (h : fileErr pre = none) :
    fileErr (pre ++ BlockRec.bad m :: rest) = some m := by
  induction pre with
  | nil => simp [fileErr]
  | cons r tl ih =>
      cases r with
      | good b => simpa [fileErr] using ih (by simpa [fileErr] using h)
      | bad m2 => simp [fileErr] at h

theorem insertedBlocks_append_bad (pre : List BlockRec) (m : String)
    (rest : List BlockRec) (h : fileErr pre = none) :
    insertedBlocks (pre ++ BlockRec.bad m :: rest) = insertedBlocks pre := by
  induction pre with
  | nil => simp [insertedBlocks]
  | cons r tl ih =>
      cases r with
      | good b => simpa [insertedBlocks] using ih (by simpa [fileErr] using h)
      | bad m2 => simp [fileErr] at h

/-- C4 counterexample: a single-file import whose only record fails:
utils.ImportChain reports the error, importChain logs it, yet the
result handed back to the caller is nil, not the error. -/
theorem importChain_single_error_not_surfaced :
    (importChainFile [] [BlockRec.bad "boom"]).2 = some "boom"
    ∧ (importChain [] [[BlockRec.bad "boom"]]).result = none
    ∧ ∀ e : String, (importChain [] [[BlockRec.bad "boom"]]).result ≠ some e :=
  ⟨rfl, rfl, fun _ h => Option.noConfusion h⟩

/-- C4 (amended): with exactly one file, a decode or insertion error
aborts the import of that file — records after the error are never
processed and the blocks inserted before it remain in the store — and the
error is logged, while importChain itself continues and returns nil. -/
theorem importChain_single_file_error (store : List Nat) (pre : List BlockRec)
    (m : String) (rest : List BlockRec) (hpre : fileErr pre = none) :
    importChain store [pre ++ BlockRec.bad m :: rest] =
      { store := store ++ insertedBlocks pre, logged := [m], result := none } := by
  simp [importChain, importChainFile_spec, fileErr_append_bad pre m rest hpre,
    insertedBlocks_append_bad pre m rest hpre]

/-- Witness for the amended C4: one good record, then a failing one, then
a record that is never reached. -/
theorem importChain_single_file_error_witness :
    fileErr [BlockRec.good 1] = none ∧
    importChain [5] [[BlockRec.good 1, BlockRec.bad "boom", BlockRec.good 2]] =
      ⟨[5, 1], ["boom"], none⟩ :=
  ⟨rfl, importChain_single_file_error [5] [BlockRec.good 1] "boom"
    [BlockRec.good 2] rfl⟩

theorem importFiles_spec (files : List (List BlockRec)) (store : List Nat)
    (logged : List String) :
    importFiles store logged files =
      (store ++ (files.map insertedBlocks).flatten,
        logged ++ files.filterMap fileErr) := by
  induction files generalizing store logged with
  | nil => simp [importFiles]
  | cons f rest ih =>
      simp only [importFiles, importChainFile_spec]
      rw [ih]
      cases h : fileErr f <;> simp [h, List.filterMap_cons]

theorem insertedBlocks_of_ok (f : List BlockRec) (h : fileErr f = none) :
    insertedBlocks f =
      f.filterMap (fun r => match r with | BlockRec.good b => some b | _ => none) := by
  induction f with
  | nil => simp [insertedBlocks]
  | cons r tl ih =>
      cases r with
      | good b => simpa [insertedBlocks] using ih (by simpa [fileErr] using h)
      | bad m => simp [fileErr] at h

/-- C5: with more than one file (or none), the files are processed
independently in order — the store receives the inserted blocks of every file,
each failure is logged, the command returns nil — and a file with no
failing record contributes all of its blocks. -/
theorem importChain_multi_file_isolation (store : List Nat)
    (files : List (List BlockRec)) (hn : files.length ≠ 1) :
    importChain store files =
      { store := store ++ (files.map insertedBlocks).flatten
        logged := files.filterMap fileErr
        result := none }
    ∧ ∀ f ∈ files, fileErr f = none →
        insertedBlocks f =
          f.filterMap (fun r => match r with | BlockRec.good b => some b | _ => none) := by
  constructor
  · simp [importChain, if_neg hn, importFiles_spec]
  · intro f _ hf
    exact insertedBlocks_of_ok f hf

/-- Witness for C5: files [A, B, C] with B corrupted — the blocks of A
and C are all inserted, the error of B is logged, the result is nil. -/
theorem importChain_multi_file_isolation_witness :
    ([[BlockRec.good 1], [BlockRec.bad "x"],
        [BlockRec.good 2, BlockRec.good 3]] : List (List BlockRec)).length ≠ 1 ∧
    importChain [] [[BlockRec.good 1], [BlockRec.bad "x"],
        [BlockRec.good 2, BlockRec.good 3]] =
      ⟨[1, 2, 3], ["x"], none⟩ :=
  ⟨by decide,
   (importChain_multi_file_isolation []
      [[BlockRec.good 1], [BlockRec.bad "x"],
        [BlockRec.good 2, BlockRec.good 3]] (by decide)).1⟩

/-- Value of a non-empty all-decimal-digit character list, none on an
empty list or any non-digit. -/
def digitsVal : List Char → Option Nat
  | [] => none
  | [c] => if 48 ≤ c.toNat ∧ c.toNat ≤ 57 then some (c.toNat - 48) else none
  | c :: rest =>
      if 48 ≤ c.toNat ∧ c.toNat ≤ 57 then
        match digitsVal rest with
        | some n => some ((c.toNat - 48) * 10 ^ rest.length + n)
        | none => none
      else none

/-- Modelled from the spec: strconv.ParseInt(s, 10, 64) is external; it
accepts an optional sign followed by one or more decimal digits, within
the signed 64-bit range, and reports an error (none here) otherwise. -/
def parseInt64 (s : String) : Option Int :=
  let signed : Int × List Char :=
    match s.data with
    | c :: rest => if c = '+' then (1, rest) else if c = '-' then (-1, rest)
                   else (1, s.data)
    | [] => (1, [])
  match digitsVal signed.2 with
  | none => none
  | some n =>
      let v : Int := signed.1 * n
      if -(2 ^ 63) ≤ v ∧ v ≤ 2 ^ 63 - 1 then some v else none

/-- ctx.Args().Get(i): the i-th argument, the empty string when absent. -/
def argGet (args : List String) (i : Nat) : String := args.getD i ""

/-- Outcome of one exportChain command: an argument/parse/range fatal
(utils.Fatalf, before any export I/O), a whole-chain export to a file
(utils.ExportChain), or a ranged appending export
(utils.ExportAppendChain). -/
inductive ExportOutcome where
  | fatalNoArg
  | fatalNoChainName
  | fatalParse
  | fatalNegative
  | fullExport (fp : String)
  | rangedExport (fp : String) (first last : Nat)
deriving DecidableEq

/-- exportChain (chaincmd.go lines 290-323): require at least one
argument and a non-empty chain name; with fewer than four arguments
export the whole chain to args[1]; otherwise parse args[2] and args[3] as
64-bit integers (fatal if either fails), reject negatives (fatal), and
run the ranged appending export. -/
def exportChain (args : List String) : ExportOutcome :=
  if args.length < 1 then ExportOutcome.fatalNoArg
  else if argGet args 0 = "" then ExportOutcome.fatalNoChainName
  else
    let fp := argGet args 1
    if args.length < 4 then ExportOutcome.fullExport fp
    else
      match parseInt64 (argGet args 2), parseInt64 (argGet args 3) with
      | some first, some last =>
          if first < 0 ∨ last < 0 then ExportOutcome.fatalNegative
          else ExportOutcome.rangedExport fp first.toNat last.toNat
      | _, _ => ExportOutcome.fatalParse

/-- Whether an export outcome performs export I/O (opens or writes the
export file). -/
def performsExport : ExportOutcome → Bool
  | ExportOutcome.fullExport _ => true
  | ExportOutcome.rangedExport _ _ _ => true
  | _ => false

/-- C6: in a ranged export (four or more arguments), if either bound
fails to parse as an integer or either parsed bound is negative, the
command ends in a fatal outcome and no export I/O is performed. -/
theorem exportChain_bad_range_is_fatal (args : List String)
    (hlen : 4 ≤ args.length)
    (hbad : parseInt64 (argGet args 2) = none
      ∨ parseInt64 (argGet args 3) = none
      ∨ (∃ v, parseInt64 (argGet args 2) = some v ∧ v < 0)
      ∨ (∃ v, parseInt64 (argGet args 3) = some v ∧ v < 0)) :
    performsExport (exportChain args) = false := by
  have hnl : ¬args.length < 1 := by omega
  have hnl4 : ¬args.length < 4 := by omega
  by_cases hcn : argGet args 0 = ""
  · simp [exportChain, hnl, hcn, performsExport]
  · simp only [exportChain, if_neg hnl, if_neg hcn, if_neg hnl4]
    rcases hbad with h2 | h3 | ⟨v, hv, hvneg⟩ | ⟨v, hv, hvneg⟩
    · simp [h2, performsExport]
    · simp [h3, performsExport]
    · rw [hv]
      cases h3 : parseInt64 (argGet args 3) with
      | none => simp [performsExport]
      | some w => simp [performsExport, if_pos (Or.inl hvneg)]
    · rw [hv]
      cases h2 : parseInt64 (argGet args 2) with
      | none => simp [performsExport]
      | some w => simp [performsExport, if_pos (Or.inr hvneg)]

/-- Witness for C6: export with first bound -1 is rejected before any
export I/O. -/
theorem exportChain_bad_range_is_fatal_witness :
    4 ≤ (["pchain", "out.rlp", "-1", "10"] : List String).length ∧
    performsExport (exportChain ["pchain", "out.rlp", "-1", "10"]) = false := by
  refine ⟨by decide, exportChain_bad_range_is_fatal _ (by decide) ?_⟩
  refine Or.inr (Or.inr (Or.inl ⟨-1, ?_, by decide⟩))
  decide

/-- C9: with exactly three arguments (chain name, file, one lone bound)
the lone bound is silently ignored and the whole chain is exported; the
ranged appending export only ever runs with at least four arguments. -/
theorem exportChain_lone_bound_ignored (args : List String)
    (hlen : args.length = 3) (hcn : argGet args 0 ≠ "") :
    exportChain args = ExportOutcome.fullExport (argGet args 1)
    ∧ ∀ (args2 : List String) (fp : String) (first last : Nat),
        exportChain args2 = ExportOutcome.rangedExport fp first last →
          4 ≤ args2.length := by
  constructor
  · have hnl : ¬args.length < 1 := by omega
    have hl4 : args.length < 4 := by omega
    simp [exportChain, hnl, hcn, hl4]
  · intro args2 fp first last h
    by_contra hlt
    have hl4 : args2.length < 4 := by omega
    by_cases hn1 : args2.length < 1
    · simp [exportChain, hn1] at h
    · by_cases hc2 : argGet args2 0 = "" <;>
        simp [exportChain, hn1, hc2, hl4] at h

/-- Witness for C9: three concrete arguments, the lone bound 7 ignored. -/
theorem exportChain_lone_bound_ignored_witness :
    (["pchain", "out.rlp", "7"] : List String).length = 3 ∧
    argGet ["pchain", "out.rlp", "7"] 0 ≠ "" ∧
    exportChain ["pchain", "out.rlp", "7"] = ExportOutcome.fullExport "out.rlp" :=
  ⟨by decide, by decide,
   (exportChain_lone_bound_ignored ["pchain", "out.rlp", "7"] (by decide)
      (by decide)).1⟩

/-- One update of a peak-memory cell (chaincmd.go lines 213-218): store
the sampled value only when the recorded peak is strictly below it. -/
def peakUpdate (peak sample : Nat) : Nat :=
  if peak < sample then sample else peak

/-- The sampling loop of the peak-memory observer (chaincmd.go lines
209-221) over a finite sample trace: each step updates the allocated and
system peaks from one MemStats reading (Alloc, Sys). -/
def observeSamples (peaks : Nat × Nat) : List (Nat × Nat) → Nat × Nat
  | [] => peaks
  | s :: rest => observeSamples (peakUpdate peaks.1 s.1, peakUpdate peaks.2 s.2) rest

theorem peakUpdate_eq_max (p s : Nat) : peakUpdate p s = max p s := by
  unfold peakUpdate
  split <;> omega

theorem observeSamples_fst (init : Nat × Nat) (samples : List (Nat × Nat)) :
    (observeSamples init samples).1 = (samples.map Prod.fst).foldl max init.1 := by
  induction samples generalizing init with
  | nil => rfl
  | cons s rest ih => simp [observeSamples, ih, peakUpdate_eq_max]

theorem observeSamples_snd (init : Nat × Nat) (samples : List (Nat × Nat)) :
    (observeSamples init samples).2 = (samples.map Prod.snd).foldl max init.2 := by
  induction samples generalizing init with
  | nil => rfl
  | cons s rest ih => simp [observeSamples, ih, peakUpdate_eq_max]

theorem foldl_max_le_foldl_max_append (l l2 : List Nat) (a : Nat) :
    l.foldl max a ≤ (l ++ l2).foldl max a := by
  induction l generalizing a with
  | nil =>
      simp only [List.nil_append, List.foldl_nil]
      induction l2 generalizing a with
      | nil => simp
      | cons x xs ih2 => exact le_trans (le_max_left a x) (ih2 (max a x))
  | cons x xs ih => simpa [List.foldl_cons] using ih (max a x)

/-- C7: each sampling step of the peak-memory observer sets each recorded
peak to the maximum of its previous value and the sampled value (so a
step never decreases it), and over any run the recorded peaks never
decrease as further samples arrive. -/
theorem peak_memory_observer_monotone :
    (∀ p s : Nat, peakUpdate p s = max p s ∧ p ≤ peakUpdate p s)
    ∧ (∀ (init : Nat × Nat) (samples more : List (Nat × Nat)),
        (observeSamples init samples).1 ≤ (observeSamples init (samples ++ more)).1
        ∧ (observeSamples init samples).2 ≤ (observeSamples init (samples ++ more)).2) := by
  constructor
  · intro p s
    refine ⟨peakUpdate_eq_max p s, ?_⟩
    rw [peakUpdate_eq_max]
    exact le_max_left p s
  · intro init samples more
    constructor
    · rw [observeSamples_fst, observeSamples_fst, List.map_append]
      exact foldl_max_le_foldl_max_append _ _ _
    · rw [observeSamples_snd, observeSamples_snd, List.map_append]
      exact foldl_max_le_foldl_max_append _ _ _

/-- The two atomic flags of a BaseService (service.go lines 66-75),
uint32 0/1 read as booleans. -/
structure ServiceFlags where
  started : Bool
  stopped : Bool
deriving DecidableEq

/-- What one call to BaseService.Start produced: the flag state after the
call, the returned (bool, error) pair, and whether impl.OnStart was
invoked during the call. -/
structure StartResult where
  state : ServiceFlags
  ret : Bool × Option String
  onStartInvoked : Bool
deriving DecidableEq

/-- BaseService.Start (service.go lines 87-118), sequentially: the CAS on
started succeeds only from the not-started state; then stopped is cleared
if set, OnStart runs (its outcome is the onStartErr argument), an OnStart
error reverts started and returns (false, err), success returns
(true, nil); a failed CAS returns (false, nil) without touching anything
or invoking OnStart. -/
def serviceStart (s : ServiceFlags) (onStartErr : Option String) : StartResult :=
  if s.started = false then
    let s1 : ServiceFlags :=
      { started := true, stopped := if s.stopped then false else s.stopped }
    match onStartErr with
    | some e =>
        { state := { s1 with started := false }
          ret := (false, some e), onStartInvoked := true }
    | none => { state := s1, ret := (true, none), onStartInvoked := true }
  else
    { state := s, ret := (false, none), onStartInvoked := false }

/-- BaseService.IsRunning (service.go lines 178-180). -/
def isRunning (s : ServiceFlags) : Bool := s.started && !s.stopped

/-- C10: after a Start that returned (true, nil), IsRunning holds and
every further Start without an intervening Stop returns (false, nil),
leaves the flags unchanged and does not invoke OnStart; when OnStart
fails from the not-started state, Start returns (false, err) with started
reverted, so a later Start invokes OnStart again. -/
theorem service_start_lifecycle (s : ServiceFlags) (o : Option String) :
    ((serviceStart s o).ret = (true, none) →
      isRunning (serviceStart s o).state = true
      ∧ ∀ o2, serviceStart (serviceStart s o).state o2 =
          ⟨(serviceStart s o).state, (false, none), false⟩)
    ∧ (∀ e, o = some e → s.started = false →
      (serviceStart s o).ret = (false, some e)
      ∧ (serviceStart s o).state.started = false
      ∧ ∀ o2, (serviceStart (serviceStart s o).state o2).onStartInvoked = true) := by
  constructor
  · intro hret
    cases hs : s.started with
    | false =>
        cases o with
        | none =>
            constructor
            · simp [serviceStart, hs, isRunning]
            · intro o2
              simp [serviceStart, hs]
        | some e => simp [serviceStart, hs] at hret
    | true => simp [serviceStart, hs] at hret
  · intro e ho hs
    subst ho
    refine ⟨by simp [serviceStart, hs], by simp [serviceStart, hs], ?_⟩
    intro o2
    cases o2 <;> simp [serviceStart, hs]

/-- Witness for C10: a fresh service started successfully, then started
again; and a fresh service whose OnStart fails. -/
theorem service_start_lifecycle_witness :
    (isRunning (serviceStart ⟨false, false⟩ none).state = true
      ∧ serviceStart (serviceStart ⟨false, false⟩ none).state none =
          ⟨(serviceStart ⟨false, false⟩ none).state, (false, none), false⟩)
    ∧ ((serviceStart ⟨false, false⟩ (some "fail")).ret = (false, some "fail")
      ∧ (serviceStart ⟨false, false⟩ (some "fail")).state.started = false
      ∧ (serviceStart (serviceStart ⟨false, false⟩ (some "fail")).state none).onStartInvoked
          = true) := by
  have h1 := (service_start_lifecycle ⟨false, false⟩ none).1 rfl
  have h2 := (service_start_lifecycle ⟨false, false⟩ (some "fail")).2 "fail" rfl rfl
  exact ⟨⟨h1.1, h1.2 none⟩, ⟨h2.1, h2.2.1, h2.2.2 none⟩⟩

end PChain
